import Mathlib

/-!
Verification of the generated FlatBuffers accessor
`thirdparty/org/apache/arrow/flatbuf/Decimal.py`.

The generated file defines a read-side view (`Decimal.GetRootAsDecimal`,
`Decimal.Init`, `Decimal.Precision`, `Decimal.Scale`) over an immutable byte
buffer, and write-side helpers (`DecimalStart`, `DecimalAddPrecision`,
`DecimalAddScale`, `DecimalEnd`) that delegate to the FlatBuffers builder.

Buffers are modelled as `List Nat` of bytes (a Python `bytearray` guarantees
each entry is below 256; theorems that need this state it as a hypothesis).
Machine integers are modelled as `Nat`/`Int` with explicit reduction modulo
2^32 where the format stores 4-byte values.

The FlatBuffers runtime (`flatbuffers.table.Table`, `flatbuffers.Builder`,
`flatbuffers.encode.Get`) is an external collaborator of the generated file;
it is modelled here from the spec's description of the Table Reader and
Object Builder, following the FlatBuffers wire format: little-endian
encoding, vtable-relative field lookup, and a downward-growing builder
buffer.  Vtable deduplication against previously finished objects is
omitted: every build modelled here finalizes a single object with a fresh
builder, for which the deduplication search over the empty vtable list
always misses.
-/

namespace PyGdfFlatbuf

/-- Little-endian encoding of a natural number into `width` bytes. -/
def encodeLE : Nat → Nat → List Nat
  | 0, _ => []
  | w + 1, v => v % 256 :: encodeLE w (v / 256)

/-- Read one byte of the buffer; positions outside the buffer read as 0
(the Python runtime would raise there — such reads are undefined behavior
per the format's trust-the-writer contract and no theorem relies on them). -/
def readByte : List Nat → Nat → Nat
  | [], _ => 0
  | b :: _, 0 => b
  | _ :: l, i + 1 => readByte l i

/-- Little-endian read of `width` bytes starting at position `i`. -/
def readLE (buf : List Nat) (i : Nat) : Nat → Nat
  | 0 => 0
  | w + 1 => readByte buf i + 256 * readLE buf (i + 1) w

/-- Reinterpret an unsigned 32-bit value as a signed (two's complement) one. -/
def toInt32 (n : Nat) : Int :=
  if n < 2 ^ 31 then (n : Int) else (n : Int) - 2 ^ 32

/-- `flatbuffers.encode.Get(packer.uoffset, buf, i)`: unsigned 4-byte LE read. -/
def readUInt32 (buf : List Nat) (i : Nat) : Nat := readLE buf i 4

/-- Unsigned 2-byte little-endian read (a `voffset` of the format). -/
def readUInt16 (buf : List Nat) (i : Nat) : Nat := readLE buf i 2

/-- Signed 4-byte little-endian read (`Int32Flags` / `soffset` reads). -/
def readInt32 (buf : List Nat) (i : Nat) : Int := toInt32 (readUInt32 buf i)

/-- The two's complement bit pattern of a signed 32-bit value, as a `Nat`. -/
def int32bits (v : Int) : Nat := (v % 2 ^ 32).toNat

/-- `flatbuffers.table.Table`: a non-owning view, a buffer reference plus a
position. -/
structure Table where
  Bytes : List Nat
  Pos : Nat
deriving DecidableEq

/-- `Table.Offset(vtableOffset)` of the Table Reader: follow the signed
`soffset` stored at `Pos` back to the vtable; if the requested vtable slot is
within the vtable's recorded size, return the 2-byte field offset stored
there, else 0 (field absent). -/
def Table.Offset (t : Table) (vtableOffset : Nat) : Nat :=
  let vtable : Nat := ((t.Pos : Int) - readInt32 t.Bytes t.Pos).toNat
  let vtableEnd : Nat := readUInt16 t.Bytes vtable
  if vtableOffset < vtableEnd then readUInt16 t.Bytes (vtable + vtableOffset) else 0

/-- `Table.Get(Int32Flags, off)` of the Table Reader: signed 4-byte LE read at
the absolute position `off`. -/
def Table.Get32 (t : Table) (off : Nat) : Int := readInt32 t.Bytes off

/-- The generated `Decimal` view: it only stores `self._tab`. -/
structure Decimal where
  tab : Table
deriving DecidableEq

/-- `Decimal.Init(buf, pos)`: store a `Table` view of the buffer. -/
def Decimal.Init (buf : List Nat) (pos : Nat) : Decimal := ⟨⟨buf, pos⟩⟩

/-- `Decimal.GetRootAsDecimal(buf, offset)`: read the leading unsigned root
offset `n` at `offset` and return a view positioned at `n + offset`.  Total:
no validation of the buffer contents is performed. -/
def Decimal.GetRootAsDecimal (buf : List Nat) (offset : Nat) : Decimal :=
  let n := readUInt32 buf offset
  Decimal.Init buf (n + offset)

/-- `Decimal.Precision()`: field slot 0, vtable offset 4; default 0 when the
slot is absent. -/
def Decimal.Precision (self : Decimal) : Int :=
  let o := self.tab.Offset 4
  if o ≠ 0 then self.tab.Get32 (o + self.tab.Pos) else 0

/-- `Decimal.Scale()`: field slot 1, vtable offset 6; default 0 when the slot
is absent. -/
def Decimal.Scale (self : Decimal) : Int :=
  let o := self.tab.Offset 6
  if o ≠ 0 then self.tab.Get32 (o + self.tab.Pos) else 0

/-- `flatbuffers.Builder`: `data` models `bytes[head:]`, the written region of
the downward-growing buffer, newest bytes at the front; offsets count from the
end of the buffer, so `Offset() = data.length`. -/
structure Builder where
  data : List Nat
  minalign : Nat
  current_vtable : List Nat
  objectEnd : Nat
  nested : Bool
deriving DecidableEq

/-- A fresh `flatbuffers.Builder()`. -/
def Builder.new : Builder := ⟨[], 1, [], 0, false⟩

/-- `Builder.Offset()`: distance from the end of the buffer to the head. -/
def Builder.Offset (b : Builder) : Nat := b.data.length

/-- `Builder.Pad(n)`: place `n` zero bytes. -/
def Builder.Pad (b : Builder) (n : Nat) : Builder :=
  { b with data := List.replicate n 0 ++ b.data }

/-- `Builder.Prep(size, additionalBytes)`: track the maximal alignment seen and
pad so that `Offset() + additionalBytes` becomes a multiple of `size`. -/
def Builder.Prep (b : Builder) (size additionalBytes : Nat) : Builder :=
  let b' : Builder := { b with minalign := max b.minalign size }
  let alignSize := (size - (b'.Offset + additionalBytes) % size) % size
  b'.Pad alignSize

/-- `Builder.Place(x, flags)`: prepend the `width`-byte little-endian encoding
of `v` (reduced to the field width, as `struct.pack` demands). -/
def Builder.Place (b : Builder) (v width : Nat) : Builder :=
  { b with data := encodeLE width (v % 256 ^ width) ++ b.data }

/-- `Builder.PrependInt32(v)`: align to 4 and place the two's complement bit
pattern of `v`. -/
def Builder.PrependInt32 (b : Builder) (v : Int) : Builder :=
  (b.Prep 4 0).Place (int32bits v) 4

/-- `Builder.PrependVOffsetT(v)`: align to 2 and place a 2-byte value. -/
def Builder.PrependVOffsetT (b : Builder) (v : Nat) : Builder :=
  (b.Prep 2 0).Place v 2

/-- `Builder.Slot(n)`: record the current offset as slot `n`'s position in the
vtable under construction. -/
def Builder.Slot (b : Builder) (slotnum : Nat) : Builder :=
  { b with current_vtable := b.current_vtable.set slotnum b.Offset }

/-- `Builder.PrependInt32Slot(n, x, d)`: write the field and record its slot
only when `x` differs from the default `d`; otherwise do nothing. -/
def Builder.PrependInt32Slot (b : Builder) (slotnum : Nat) (v dflt : Int) : Builder :=
  if v ≠ dflt then (b.PrependInt32 v).Slot slotnum else b

/-- `Builder.StartObject(numfields)`: begin bookkeeping for a new object with
`numfields` slots. -/
def Builder.StartObject (b : Builder) (numfields : Nat) : Builder :=
  { b with
    current_vtable := List.replicate numfields 0
    objectEnd := b.Offset
    minalign := 1
    nested := true }

/-- Trailing zero slots of a vtable are trimmed before serialization. -/
def trimTrailingZeros (l : List Nat) : List Nat :=
  (l.reverse.dropWhile (fun x => x == 0)).reverse

/-- Overwrite the bytes of `data` at positions `i, i+1, ...` with `bs`
(the builder's `encode.Write` fix-up of the placeholder `soffset`). -/
def writeBytesAt (data : List Nat) (i : Nat) (bs : List Nat) : List Nat :=
  data.take i ++ bs ++ data.drop (i + bs.length)

/-- `Builder.PrependSOffsetTRelative(off)`: align to 4 and place
`Offset() - off + 4` as a 4-byte value. -/
def Builder.PrependSOffsetTRelative (b : Builder) (off : Nat) : Builder :=
  let b' := b.Prep 4 0
  b'.Place (b'.Offset - off + 4) 4

/-- `Builder.WriteVtable()`: place a placeholder `soffset`, serialize the
trimmed vtable (per-slot offsets relative to the object start, then the object
size, then the vtable size in bytes), and fix the placeholder up to point back
at the vtable.  Returns the finished object's offset. -/
def Builder.WriteVtable (b : Builder) : Nat × Builder :=
  let b1 := b.PrependSOffsetTRelative 0
  let objectOffset := b1.Offset
  let trimmed := trimTrailingZeros b1.current_vtable
  let b2 := trimmed.reverse.foldl
    (fun bb off => bb.PrependVOffsetT (if off = 0 then 0 else objectOffset - off)) b1
  let b3 := b2.PrependVOffsetT (objectOffset - b2.objectEnd)
  let b4 := b3.PrependVOffsetT ((trimmed.length + 2) * 2)
  let soff := b4.Offset - objectOffset
  let b5 : Builder :=
    { b4 with data := writeBytesAt b4.data (b4.data.length - objectOffset) (encodeLE 4 soff) }
  (objectOffset, { b5 with current_vtable := [] })

/-- `Builder.EndObject()`: leave the nested state and write the vtable. -/
def Builder.EndObject (b : Builder) : Nat × Builder :=
  ({ b with nested := false } : Builder).WriteVtable

/-- `Builder.PrependUOffsetTRelative(off)`: align to 4 and place
`Offset() - off + 4` as an unsigned 4-byte value. -/
def Builder.PrependUOffsetTRelative (b : Builder) (off : Nat) : Builder :=
  let b' := b.Prep 4 0
  b'.Place (b'.Offset - off + 4) 4

/-- `Builder.Finish(rootTable)`: align and prepend the root table offset. -/
def Builder.Finish (b : Builder) (rootTable : Nat) : Builder :=
  (b.Prep b.minalign 4).PrependUOffsetTRelative rootTable

/-- `Builder.Output()`: the written region of the buffer. -/
def Builder.Output (b : Builder) : List Nat := b.data

/-- Generated `def DecimalStart(builder): builder.StartObject(2)`. -/
def DecimalStart (builder : Builder) : Builder := builder.StartObject 2

/-- Generated `def DecimalAddPrecision(builder, precision):
builder.PrependInt32Slot(0, precision, 0)`. -/
def DecimalAddPrecision (builder : Builder) (precision : Int) : Builder :=
  builder.PrependInt32Slot 0 precision 0

/-- Generated `def DecimalAddScale(builder, scale):
builder.PrependInt32Slot(1, scale, 0)`. -/
def DecimalAddScale (builder : Builder) (scale : Int) : Builder :=
  builder.PrependInt32Slot 1 scale 0

/-- Generated `def DecimalEnd(builder): return builder.EndObject()`. -/
def DecimalEnd (builder : Builder) : Nat × Builder := builder.EndObject

/-- The build pipeline the spec's testable properties describe: a fresh
builder, `DecimalStart`, optionally `DecimalAddPrecision p`, optionally
`DecimalAddScale s`, `DecimalEnd`, then `Finish` on the returned offset; the
result is the finished buffer. -/
def buildDecimalBuf (addP : Bool) (p : Int) (addS : Bool) (s : Int) : List Nat :=
  let b0 := DecimalStart Builder.new
  let b1 := if addP then DecimalAddPrecision b0 p else b0
  let b2 := if addS then DecimalAddScale b1 s else b1
  let r := DecimalEnd b2
  ((r.2).Finish r.1).Output

/-- The finished buffer when both fields are written: root offset, vtable
(size 8, object size 12, precision at +8, scale at +4), the table's `soffset`,
then the scale and precision payloads. -/
def bufBoth (p s : Int) : List Nat :=
  [12, 0, 0, 0, 8, 0, 12, 0, 8, 0, 4, 0, 8, 0, 0, 0] ++
    encodeLE 4 (int32bits s % 256 ^ 4) ++ encodeLE 4 (int32bits p % 256 ^ 4)

/-- The finished buffer when only scale is written: slot 0's vtable entry is 0
(absent). -/
def bufScaleOnly (s : Int) : List Nat :=
  [12, 0, 0, 0, 8, 0, 8, 0, 0, 0, 4, 0, 8, 0, 0, 0] ++ encodeLE 4 (int32bits s % 256 ^ 4)

/-- The finished buffer when only precision is written: the vtable is trimmed
to one slot (6 bytes), and `Finish` pads 2 bytes for alignment. -/
def bufPrecisionOnly (p : Int) : List Nat :=
  [12, 0, 0, 0, 0, 0, 6, 0, 8, 0, 4, 0, 6, 0, 0, 0] ++ encodeLE 4 (int32bits p % 256 ^ 4)

/-- The finished buffer when no field is written: the vtable is trimmed to
zero slots. -/
def bufNone : List Nat := [8, 0, 0, 0, 4, 0, 4, 0, 4, 0, 0, 0]

/-- Spec-side formulation of the unsigned 4-byte little-endian read: the sum
of the four bytes weighted by powers of 256.  Deliberately different in form
from the recursive `readLE` of the runtime model; the accessor-contract
theorems relate the two. -/
def specReadUInt32 (buf : List Nat) (i : Nat) : Nat :=
  ∑ k ∈ Finset.range 4, readByte buf (i + k) * 256 ^ k

/-- Spec-side formulation of the signed 4-byte little-endian read: the
unsigned value shifted into the signed 32-bit window by modular arithmetic. -/
def specReadInt32 (buf : List Nat) (i : Nat) : Int :=
  ((specReadUInt32 buf i : Int) + 2 ^ 31) % 2 ^ 32 - 2 ^ 31

/-- An encoded chunk has exactly the requested width. -/
theorem encodeLE_length (w v : Nat) : (encodeLE w v).length = w := by
  induction w generalizing v with
  | zero => rfl
  | succ n ih => simp [encodeLE, ih]

theorem encodeLE4 (v : Nat) :
    encodeLE 4 v = [v % 256, v / 256 % 256, v / 256 / 256 % 256, v / 256 / 256 / 256 % 256] := rfl

theorem encodeLE2 (v : Nat) : encodeLE 2 v = [v % 256, v / 256 % 256] := rfl

theorem trim_04 : trimTrailingZeros [0, 4] = [0, 4] := rfl

theorem trim_48 : trimTrailingZeros [4, 8] = [4, 8] := rfl

theorem trim_40 : trimTrailingZeros [4, 0] = [4] := rfl

theorem take6_cons (a b c d e f : Nat) (l : List Nat) :
    (a :: b :: c :: d :: e :: f :: l).take 6 = [a, b, c, d, e, f] := rfl

theorem take8_cons (a b c d e f g h : Nat) (l : List Nat) :
    (a :: b :: c :: d :: e :: f :: g :: h :: l).take 8 = [a, b, c, d, e, f, g, h] := rfl

theorem drop10_cons (a b c d e f g h i j : Nat) (l : List Nat) :
    (a :: b :: c :: d :: e :: f :: g :: h :: i :: j :: l).drop 10 = l := rfl

theorem drop12_cons (a b c d e f g h i j k m : Nat) (l : List Nat) :
    (a :: b :: c :: d :: e :: f :: g :: h :: i :: j :: k :: m :: l).drop 12 = l := rfl

theorem set1_cons (a b c : Nat) (l : List Nat) : (a :: b :: l).set 1 c = a :: c :: l := rfl

/-- Unfolding `Prep` to its explicit record form. -/
theorem Prep_eq (b : Builder) (size add : Nat) :
    b.Prep size add =
      ⟨List.replicate ((size - (b.data.length + add) % size) % size) 0 ++ b.data,
        max b.minalign size, b.current_vtable, b.objectEnd, b.nested⟩ := rfl

/-- Recombining the four little-endian bytes of a value recovers it modulo
2^32. -/
theorem nat_decode4 (n : Nat) :
    n % 256 + 256 * (n / 256 % 256 + 256 * (n / 256 / 256 % 256 +
      256 * (n / 256 / 256 / 256 % 256 + 256 * 0))) = n % 4294967296 := by
  omega

theorem int32bits_lt (x : Int) : int32bits x < 4294967296 := by
  unfold int32bits; omega

theorem int32bits_mod (x : Int) : int32bits x % 256 ^ 4 = int32bits x := by
  unfold int32bits; omega

/-- Two's complement round-trip for in-range values. -/
theorem toInt32_int32bits (x : Int) (h1 : -(2 ^ 31) ≤ x) (h2 : x < 2 ^ 31) :
    toInt32 (int32bits x) = x := by
  unfold toInt32 int32bits
  split <;> omega

/-- Adding the scale field onto the builder state left by a nonzero
precision add. -/
theorem addScale_on (ep : List Nat) (hep : ep.length = 4) (s : Int) (hs : s ≠ 0) :
    DecimalAddScale ⟨ep, 4, [4, 0], 0, true⟩ s =
      ⟨encodeLE 4 (int32bits s % 256 ^ 4) ++ ep, 4, [4, 8], 0, true⟩ := by
  rw [DecimalAddScale, Builder.PrependInt32Slot, if_pos hs, Builder.PrependInt32, Prep_eq]
  simp only [Builder.Place, Builder.Slot, Builder.Offset, set1_cons, hep, encodeLE_length,
    List.length_cons, List.length_nil, List.length_append, List.length_replicate,
    List.nil_append, List.cons_append, List.append_nil]
  norm_num [List.replicate]

set_option maxHeartbeats 1000000 in
/-- Building with both fields nonzero produces the `bufBoth` layout. -/
theorem build_both (p s : Int) (hp : p ≠ 0) (hs : s ≠ 0) :
    buildDecimalBuf true p true s = bufBoth p s := by
  have s1 : buildDecimalBuf true p true s =
      (((DecimalAddScale (DecimalAddPrecision (DecimalStart Builder.new) p) s).EndObject).2.Finish
        ((DecimalAddScale (DecimalAddPrecision (DecimalStart Builder.new) p) s).EndObject).1).Output := rfl
  have s2 : DecimalAddPrecision (DecimalStart Builder.new) p =
      ⟨encodeLE 4 (int32bits p % 256 ^ 4), 4, [4, 0], 0, true⟩ := by
    rw [DecimalAddPrecision, Builder.PrependInt32Slot, if_pos hp]; rfl
  rw [s1, s2, bufBoth]
  generalize hEp : encodeLE 4 (int32bits p % 256 ^ 4) = ep
  have hep : ep.length = 4 := by rw [← hEp, encodeLE_length]
  rw [addScale_on ep hep s hs]
  generalize hEs : encodeLE 4 (int32bits s % 256 ^ 4) = es
  have hes : es.length = 4 := by rw [← hEs, encodeLE_length]
  simp only [Builder.EndObject, Builder.WriteVtable, Builder.Finish, Builder.Output,
    Builder.PrependSOffsetTRelative, Builder.PrependUOffsetTRelative, Builder.PrependVOffsetT,
    Prep_eq, Builder.Pad, Builder.Place, Builder.Offset, writeBytesAt, trim_48,
    encodeLE4, encodeLE2, take8_cons, drop12_cons, hep, hes,
    List.length_cons, List.length_nil, List.length_append, List.length_replicate,
    List.nil_append, List.cons_append, List.append_nil, List.foldl_cons, List.foldl_nil,
    List.reverse_cons, List.reverse_nil]
  norm_num [List.replicate, hep, hes]

set_option maxHeartbeats 1000000 in
/-- Building with only scale nonzero produces the `bufScaleOnly` layout. -/
theorem build_scaleOnly (s : Int) (hs : s ≠ 0) :
    buildDecimalBuf false 0 true s = bufScaleOnly s := by
  have s1 : buildDecimalBuf false 0 true s =
      (((DecimalAddScale (DecimalStart Builder.new) s).EndObject).2.Finish
        ((DecimalAddScale (DecimalStart Builder.new) s).EndObject).1).Output := rfl
  have s2 : DecimalAddScale (DecimalStart Builder.new) s =
      ⟨encodeLE 4 (int32bits s % 256 ^ 4), 4, [0, 4], 0, true⟩ := by
    rw [DecimalAddScale, Builder.PrependInt32Slot, if_pos hs]; rfl
  rw [s1, s2, bufScaleOnly]
  generalize hE : encodeLE 4 (int32bits s % 256 ^ 4) = es
  have hlen : es.length = 4 := by rw [← hE, encodeLE_length]
  simp only [Builder.EndObject, Builder.WriteVtable, Builder.Finish, Builder.Output,
    Builder.PrependSOffsetTRelative, Builder.PrependUOffsetTRelative, Builder.PrependVOffsetT,
    Prep_eq, Builder.Pad, Builder.Place, Builder.Offset, writeBytesAt, trim_04,
    encodeLE4, encodeLE2, take8_cons, drop12_cons, hlen,
    List.length_cons, List.length_nil, List.length_append, List.length_replicate,
    List.nil_append, List.cons_append, List.append_nil, List.foldl_cons, List.foldl_nil,
    List.reverse_cons, List.reverse_nil]
  norm_num [List.replicate, hlen]

set_option maxHeartbeats 1000000 in
/-- Building with only precision nonzero produces the `bufPrecisionOnly`
layout. -/
theorem build_precisionOnly (p : Int) (hp : p ≠ 0) :
    buildDecimalBuf true p false 0 = bufPrecisionOnly p := by
  have s1 : buildDecimalBuf true p false 0 =
      (((DecimalAddPrecision (DecimalStart Builder.new) p).EndObject).2.Finish
        ((DecimalAddPrecision (DecimalStart Builder.new) p).EndObject).1).Output := rfl
  have s2 : DecimalAddPrecision (DecimalStart Builder.new) p =
      ⟨encodeLE 4 (int32bits p % 256 ^ 4), 4, [4, 0], 0, true⟩ := by
    rw [DecimalAddPrecision, Builder.PrependInt32Slot, if_pos hp]; rfl
  rw [s1, s2, bufPrecisionOnly]
  generalize hEp : encodeLE 4 (int32bits p % 256 ^ 4) = ep
  have hep : ep.length = 4 := by rw [← hEp, encodeLE_length]
  simp only [Builder.EndObject, Builder.WriteVtable, Builder.Finish, Builder.Output,
    Builder.PrependSOffsetTRelative, Builder.PrependUOffsetTRelative, Builder.PrependVOffsetT,
    Prep_eq, Builder.Pad, Builder.Place, Builder.Offset, writeBytesAt, trim_40,
    encodeLE4, encodeLE2, take6_cons, drop10_cons, hep,
    List.length_cons, List.length_nil, List.length_append, List.length_replicate,
    List.nil_append, List.cons_append, List.append_nil, List.foldl_cons, List.foldl_nil,
    List.reverse_cons, List.reverse_nil]
  norm_num [List.replicate, hep]

/-- Building with neither field produces the `bufNone` layout. -/
theorem build_none : buildDecimalBuf false 0 false 0 = bufNone := rfl

/-- Unfolding the Table Reader's slot lookup. -/
theorem Offset_eq (t : Table) (vo : Nat) :
    t.Offset vo =
      if vo < readUInt16 t.Bytes (((t.Pos : Int) - readInt32 t.Bytes t.Pos).toNat)
      then readUInt16 t.Bytes ((((t.Pos : Int) - readInt32 t.Bytes t.Pos).toNat) + vo)
      else 0 := rfl

theorem int32bits_modw (x : Int) : int32bits x % 256 ^ 4 % 4294967296 = int32bits x := by
  unfold int32bits; omega

/-- Reading precision back from a buffer holding both fields. -/
theorem readP_both (p s : Int) :
    (Decimal.GetRootAsDecimal (bufBoth p s) 0).Precision = toInt32 (int32bits p) := by
  have hroot : Decimal.GetRootAsDecimal (bufBoth p s) 0 =
      ⟨⟨bufBoth p s, readUInt32 (bufBoth p s) 0 + 0⟩⟩ := rfl
  have hpos : readUInt32 (bufBoth p s) 0 + 0 = 12 := rfl
  have hso : readInt32 (bufBoth p s) 12 = 8 := rfl
  have hvt : readUInt16 (bufBoth p s) 4 = 8 := rfl
  have hslot : readUInt16 (bufBoth p s) 8 = 8 := rfl
  have hoff : (⟨bufBoth p s, 12⟩ : Table).Offset 4 = 8 := by
    rw [Offset_eq]
    dsimp only
    rw [hso]
    norm_num [show ((4 : Int)).toNat = 4 from rfl, hvt, hslot]
  have hread : readLE (bufBoth p s) 20 4
      = int32bits p % 256 ^ 4 % 256 + 256 * (int32bits p % 256 ^ 4 / 256 % 256 +
        256 * (int32bits p % 256 ^ 4 / 256 / 256 % 256 +
        256 * (int32bits p % 256 ^ 4 / 256 / 256 / 256 % 256 + 256 * 0))) := rfl
  rw [hroot, hpos]
  simp only [Decimal.Precision, Table.Get32, readInt32, readUInt32]
  rw [hoff]
  norm_num
  rw [hread, nat_decode4, int32bits_modw]

/-- Reading scale back from a buffer holding both fields. -/
theorem readS_both (p s : Int) :
    (Decimal.GetRootAsDecimal (bufBoth p s) 0).Scale = toInt32 (int32bits s) := by
  have hroot : Decimal.GetRootAsDecimal (bufBoth p s) 0 =
      ⟨⟨bufBoth p s, readUInt32 (bufBoth p s) 0 + 0⟩⟩ := rfl
  have hpos : readUInt32 (bufBoth p s) 0 + 0 = 12 := rfl
  have hso : readInt32 (bufBoth p s) 12 = 8 := rfl
  have hvt : readUInt16 (bufBoth p s) 4 = 8 := rfl
  have hslot : readUInt16 (bufBoth p s) 10 = 4 := rfl
  have hoff : (⟨bufBoth p s, 12⟩ : Table).Offset 6 = 4 := by
    rw [Offset_eq]
    dsimp only
    rw [hso]
    norm_num [show ((4 : Int)).toNat = 4 from rfl, hvt, hslot]
  have hread : readLE (bufBoth p s) 16 4
      = int32bits s % 256 ^ 4 % 256 + 256 * (int32bits s % 256 ^ 4 / 256 % 256 +
        256 * (int32bits s % 256 ^ 4 / 256 / 256 % 256 +
        256 * (int32bits s % 256 ^ 4 / 256 / 256 / 256 % 256 + 256 * 0))) := rfl
  rw [hroot, hpos]
  simp only [Decimal.Scale, Table.Get32, readInt32, readUInt32]
  rw [hoff]
  norm_num
  rw [hread, nat_decode4, int32bits_modw]

/-- Precision reads as absent (0) from a scale-only buffer. -/
theorem readP_scaleOnly (s : Int) :
    (Decimal.GetRootAsDecimal (bufScaleOnly s) 0).Precision = 0 := by
  have hroot : Decimal.GetRootAsDecimal (bufScaleOnly s) 0 =
      ⟨⟨bufScaleOnly s, readUInt32 (bufScaleOnly s) 0 + 0⟩⟩ := rfl
  have hpos : readUInt32 (bufScaleOnly s) 0 + 0 = 12 := rfl
  have hso : readInt32 (bufScaleOnly s) 12 = 8 := rfl
  have hvt : readUInt16 (bufScaleOnly s) 4 = 8 := rfl
  have hslot : readUInt16 (bufScaleOnly s) 8 = 0 := rfl
  have hoff : (⟨bufScaleOnly s, 12⟩ : Table).Offset 4 = 0 := by
    rw [Offset_eq]
    dsimp only
    rw [hso]
    norm_num [show ((4 : Int)).toNat = 4 from rfl, hvt, hslot]
  rw [hroot, hpos]
  simp only [Decimal.Precision]
  rw [hoff]
  norm_num

/-- Scale reads back from a scale-only buffer. -/
theorem readS_scaleOnly (s : Int) :
    (Decimal.GetRootAsDecimal (bufScaleOnly s) 0).Scale = toInt32 (int32bits s) := by
  have hroot : Decimal.GetRootAsDecimal (bufScaleOnly s) 0 =
      ⟨⟨bufScaleOnly s, readUInt32 (bufScaleOnly s) 0 + 0⟩⟩ := rfl
  have hpos : readUInt32 (bufScaleOnly s) 0 + 0 = 12 := rfl
  have hso : readInt32 (bufScaleOnly s) 12 = 8 := rfl
  have hvt : readUInt16 (bufScaleOnly s) 4 = 8 := rfl
  have hslot : readUInt16 (bufScaleOnly s) 10 = 4 := rfl
  have hoff : (⟨bufScaleOnly s, 12⟩ : Table).Offset 6 = 4 := by
    rw [Offset_eq]
    dsimp only
    rw [hso]
    norm_num [show ((4 : Int)).toNat = 4 from rfl, hvt, hslot]
  have hread : readLE (bufScaleOnly s) 16 4
      = int32bits s % 256 ^ 4 % 256 + 256 * (int32bits s % 256 ^ 4 / 256 % 256 +
        256 * (int32bits s % 256 ^ 4 / 256 / 256 % 256 +
        256 * (int32bits s % 256 ^ 4 / 256 / 256 / 256 % 256 + 256 * 0))) := rfl
  rw [hroot, hpos]
  simp only [Decimal.Scale, Table.Get32, readInt32, readUInt32]
  rw [hoff]
  norm_num
  rw [hread, nat_decode4, int32bits_modw]

/-- Precision reads back from a precision-only buffer. -/
theorem readP_precisionOnly (p : Int) :
    (Decimal.GetRootAsDecimal (bufPrecisionOnly p) 0).Precision = toInt32 (int32bits p) := by
  have hroot : Decimal.GetRootAsDecimal (bufPrecisionOnly p) 0 =
      ⟨⟨bufPrecisionOnly p, readUInt32 (bufPrecisionOnly p) 0 + 0⟩⟩ := rfl
  have hpos : readUInt32 (bufPrecisionOnly p) 0 + 0 = 12 := rfl
  have hso : readInt32 (bufPrecisionOnly p) 12 = 6 := rfl
  have hvt : readUInt16 (bufPrecisionOnly p) 6 = 6 := rfl
  have hslot : readUInt16 (bufPrecisionOnly p) 10 = 4 := rfl
  have hoff : (⟨bufPrecisionOnly p, 12⟩ : Table).Offset 4 = 4 := by
    rw [Offset_eq]
    dsimp only
    rw [hso]
    norm_num [show ((6 : Int)).toNat = 6 from rfl, hvt, hslot]
  have hread : readLE (bufPrecisionOnly p) 16 4
      = int32bits p % 256 ^ 4 % 256 + 256 * (int32bits p % 256 ^ 4 / 256 % 256 +
        256 * (int32bits p % 256 ^ 4 / 256 / 256 % 256 +
        256 * (int32bits p % 256 ^ 4 / 256 / 256 / 256 % 256 + 256 * 0))) := rfl
  rw [hroot, hpos]
  simp only [Decimal.Precision, Table.Get32, readInt32, readUInt32]
  rw [hoff]
  norm_num
  rw [hread, nat_decode4, int32bits_modw]

/-- Scale reads as absent (0) from a precision-only buffer: vtable offset 6
falls outside the trimmed vtable of size 6. -/
theorem readS_precisionOnly (p : Int) :
    (Decimal.GetRootAsDecimal (bufPrecisionOnly p) 0).Scale = 0 := by
  have hroot : Decimal.GetRootAsDecimal (bufPrecisionOnly p) 0 =
      ⟨⟨bufPrecisionOnly p, readUInt32 (bufPrecisionOnly p) 0 + 0⟩⟩ := rfl
  have hpos : readUInt32 (bufPrecisionOnly p) 0 + 0 = 12 := rfl
  have hso : readInt32 (bufPrecisionOnly p) 12 = 6 := rfl
  have hvt : readUInt16 (bufPrecisionOnly p) 6 = 6 := rfl
  have hoff : (⟨bufPrecisionOnly p, 12⟩ : Table).Offset 6 = 0 := by
    rw [Offset_eq]
    dsimp only
    rw [hso]
    norm_num [show ((6 : Int)).toNat = 6 from rfl, hvt]
  rw [hroot, hpos]
  simp only [Decimal.Scale]
  rw [hoff]
  norm_num

/-- Precision reads as absent (0) from an empty-table buffer. -/
theorem readP_none : (Decimal.GetRootAsDecimal bufNone 0).Precision = 0 := by decide

/-- Scale reads as absent (0) from an empty-table buffer. -/
theorem readS_none : (Decimal.GetRootAsDecimal bufNone 0).Scale = 0 := by decide

/-- Writing the default 0 leaves the builder untouched (precision). -/
theorem addPrecision_zero (b : Builder) : DecimalAddPrecision b 0 = b := by
  simp [DecimalAddPrecision, Builder.PrependInt32Slot]

/-- Writing the default 0 leaves the builder untouched (scale). -/
theorem addScale_zero (b : Builder) : DecimalAddScale b 0 = b := by
  simp [DecimalAddScale, Builder.PrependInt32Slot]

/-- A precision of exactly 0 builds the same buffer as an omitted precision. -/
theorem build_noopP (s : Int) : buildDecimalBuf true 0 true s = buildDecimalBuf false 0 true s := by
  simp [buildDecimalBuf, addPrecision_zero]

/-- A scale of exactly 0 builds the same buffer as an omitted scale. -/
theorem build_noopS (p : Int) : buildDecimalBuf true p true 0 = buildDecimalBuf true p false 0 := by
  simp [buildDecimalBuf, addScale_zero]

/-- A scale of exactly 0 builds the same buffer as an omitted scale, with
precision also omitted. -/
theorem build_noopS0 : buildDecimalBuf false 0 true 0 = buildDecimalBuf false 0 false 0 := by
  simp [buildDecimalBuf, addScale_zero]

/-- Each byte read from a byte-valued buffer is below 256 (out-of-range reads
give 0). -/
theorem readByte_lt (buf : List Nat) (hb : ∀ b ∈ buf, b < 256) (i : Nat) :
    readByte buf i < 256 := by
  induction buf generalizing i with
  | nil => simp [readByte]
  | cons a l ih =>
    cases i with
    | zero => exact hb a (List.mem_cons_self a l)
    | succ n => exact ih (fun b hbm => hb b (List.mem_cons_of_mem a hbm)) n

/-- A `w`-byte little-endian read of a byte-valued buffer is below `256 ^ w`. -/
theorem readLE_lt (buf : List Nat) (hb : ∀ b ∈ buf, b < 256) (i w : Nat) :
    readLE buf i w < 256 ^ w := by
  induction w generalizing i with
  | zero => simp [readLE]
  | succ n ih =>
    have h1 := readByte_lt buf hb i
    have h2 := ih (i + 1)
    have h3 : readLE buf i (n + 1) = readByte buf i + 256 * readLE buf (i + 1) n := rfl
    rw [h3, pow_succ]
    nlinarith

/-- The spec-side byte sum agrees with the runtime model's recursive read. -/
theorem specReadUInt32_eq (buf : List Nat) (i : Nat) :
    specReadUInt32 buf i = readLE buf i 4 := by
  simp [specReadUInt32, Finset.sum_range_succ, readLE]
  ring

/-- The spec-side signed read agrees with the runtime model's two's
complement interpretation on byte-valued buffers. -/
theorem specReadInt32_eq (buf : List Nat) (hb : ∀ b ∈ buf, b < 256) (i : Nat) :
    specReadInt32 buf i = toInt32 (readLE buf i 4) := by
  have hlt : readLE buf i 4 < 256 ^ 4 := readLE_lt buf hb i 4
  unfold specReadInt32 toInt32
  rw [specReadUInt32_eq]
  split <;> omega

/-- The signed interpretation of a 32-bit value lies in the int32 range. -/
theorem toInt32_range (n : Nat) (h : n < 2 ^ 32) :
    -(2 ^ 31) ≤ toInt32 n ∧ toInt32 n < 2 ^ 31 := by
  unfold toInt32
  split <;> constructor <;> omega

theorem PrependVOffsetT_nested (b : Builder) (v : Nat) :
    (b.PrependVOffsetT v).nested = b.nested := rfl

theorem PrependSOffsetTRelative_nested (b : Builder) (off : Nat) :
    (b.PrependSOffsetTRelative off).nested = b.nested := rfl

/-- Serializing vtable entries does not change the nested flag. -/
theorem foldl_prependV_nested (g : Nat → Nat) (l : List Nat) (bb : Builder) :
    (l.foldl (fun b off => b.PrependVOffsetT (g off)) bb).nested = bb.nested := by
  induction l generalizing bb with
  | nil => rfl
  | cons a t ih => rw [List.foldl_cons, ih]; rfl

/-- C1: for all int32 values p and s, building a Decimal via start,
add_precision(p), add_scale(s), end, and reading it back through the accessor
yields precision() = p and scale() = s; and when p or s equals the default 0,
the buffer built with the exact-0 write equals the buffer built with that
write omitted (the two are indistinguishable). -/
theorem decimal_roundtrip (p s : Int) (hp1 : -(2 ^ 31) ≤ p) (hp2 : p < 2 ^ 31)
    (hs1 : -(2 ^ 31) ≤ s) (hs2 : s < 2 ^ 31) :
    ((Decimal.GetRootAsDecimal (buildDecimalBuf true p true s) 0).Precision = p ∧
      (Decimal.GetRootAsDecimal (buildDecimalBuf true p true s) 0).Scale = s) ∧
    (p = 0 → buildDecimalBuf true p true s = buildDecimalBuf false 0 true s) ∧
    (s = 0 → buildDecimalBuf true p true s = buildDecimalBuf true p false 0) := by
  by_cases hp : p = 0 <;> by_cases hs : s = 0
  · subst hp; subst hs
    refine ⟨?_, fun _ => build_noopP 0, fun _ => build_noopS 0⟩
    rw [build_noopP 0, build_noopS0, build_none]
    exact ⟨readP_none, readS_none⟩
  · subst hp
    refine ⟨?_, fun _ => build_noopP s, fun h => absurd h hs⟩
    rw [build_noopP s, build_scaleOnly s hs]
    exact ⟨readP_scaleOnly s, by rw [readS_scaleOnly s, toInt32_int32bits s hs1 hs2]⟩
  · subst hs
    refine ⟨?_, fun h => absurd h hp, fun _ => build_noopS p⟩
    rw [build_noopS p, build_precisionOnly p hp]
    exact ⟨by rw [readP_precisionOnly p, toInt32_int32bits p hp1 hp2], readS_precisionOnly p⟩
  · refine ⟨?_, fun h => absurd h hp, fun h => absurd h hs⟩
    rw [build_both p s hp hs]
    exact ⟨by rw [readP_both p s, toInt32_int32bits p hp1 hp2],
      by rw [readS_both p s, toInt32_int32bits s hs1 hs2]⟩

/-- Witness for C1 at p = 5, s = 3. -/
theorem decimal_roundtrip_witness :
    ((Decimal.GetRootAsDecimal (buildDecimalBuf true 5 true 3) 0).Precision = 5 ∧
      (Decimal.GetRootAsDecimal (buildDecimalBuf true 5 true 3) 0).Scale = 3) ∧
    ((5 : Int) = 0 → buildDecimalBuf true 5 true 3 = buildDecimalBuf false 0 true 3) ∧
    ((3 : Int) = 0 → buildDecimalBuf true 5 true 3 = buildDecimalBuf true 5 false 0) :=
  decimal_roundtrip 5 3 (by decide) (by decide) (by decide) (by decide)

/-- C2: precision() resolves slot 0 (vtable offset 4) via the Table Reader and
scale() slot 1 (vtable offset 6); an offset of 0 yields the default 0,
otherwise the 4-byte little-endian signed integer at table position plus slot
offset, here phrased through the spec-side byte-sum reader. -/
theorem precision_scale_contract (d : Decimal) (hb : ∀ b ∈ d.tab.Bytes, b < 256) :
    d.Precision = (if d.tab.Offset (4 + 2 * 0) = 0 then 0
      else specReadInt32 d.tab.Bytes (d.tab.Offset (4 + 2 * 0) + d.tab.Pos)) ∧
    d.Scale = (if d.tab.Offset (4 + 2 * 1) = 0 then 0
      else specReadInt32 d.tab.Bytes (d.tab.Offset (4 + 2 * 1) + d.tab.Pos)) := by
  norm_num
  constructor
  · by_cases h : d.tab.Offset 4 = 0 <;>
      simp [Decimal.Precision, h, Table.Get32, readInt32, readUInt32, specReadInt32_eq _ hb]
  · by_cases h : d.tab.Offset 6 = 0 <;>
      simp [Decimal.Scale, h, Table.Get32, readInt32, readUInt32, specReadInt32_eq _ hb]

/-- Witness for C2 on the empty-table buffer viewed at position 8. -/
theorem precision_scale_contract_witness :
    (⟨⟨bufNone, 8⟩⟩ : Decimal).Precision = (if (⟨bufNone, 8⟩ : Table).Offset (4 + 2 * 0) = 0 then 0
      else specReadInt32 bufNone ((⟨bufNone, 8⟩ : Table).Offset (4 + 2 * 0) + 8)) ∧
    (⟨⟨bufNone, 8⟩⟩ : Decimal).Scale = (if (⟨bufNone, 8⟩ : Table).Offset (4 + 2 * 1) = 0 then 0
      else specReadInt32 bufNone ((⟨bufNone, 8⟩ : Table).Offset (4 + 2 * 1) + 8)) :=
  precision_scale_contract ⟨⟨bufNone, 8⟩⟩ (by decide)

/-- C3: root(buffer, offset) reads the leading unsigned 4-byte offset n at
`offset` and returns a view over the same buffer positioned at n + offset,
with no validation (the construction is total). -/
theorem getRoot_contract (buf : List Nat) (offset : Nat) :
    (Decimal.GetRootAsDecimal buf offset).tab.Bytes = buf ∧
    (Decimal.GetRootAsDecimal buf offset).tab.Pos = specReadUInt32 buf offset + offset := by
  refine ⟨rfl, ?_⟩
  show readUInt32 buf offset + offset = specReadUInt32 buf offset + offset
  rw [specReadUInt32_eq]
  rfl

/-- C4: building with no fields set and reading back yields 0 for both
accessors. -/
theorem build_empty_reads :
    (Decimal.GetRootAsDecimal (buildDecimalBuf false 0 false 0) 0).Precision = 0 ∧
    (Decimal.GetRootAsDecimal (buildDecimalBuf false 0 false 0) 0).Scale = 0 := by
  decide

/-- C5: building with only scale set to v yields precision() = 0 and
scale() = v. -/
theorem build_scale_only_roundtrip (v : Int) (h1 : -(2 ^ 31) ≤ v) (h2 : v < 2 ^ 31) :
    (Decimal.GetRootAsDecimal (buildDecimalBuf false 0 true v) 0).Precision = 0 ∧
    (Decimal.GetRootAsDecimal (buildDecimalBuf false 0 true v) 0).Scale = v := by
  by_cases hv : v = 0
  · subst hv
    rw [build_noopS0, build_none]
    exact ⟨readP_none, readS_none⟩
  · rw [build_scaleOnly v hv]
    exact ⟨readP_scaleOnly v, by rw [readS_scaleOnly v, toInt32_int32bits v h1 h2]⟩

/-- Witness for C5 at v = 7. -/
theorem build_scale_only_roundtrip_witness :
    (Decimal.GetRootAsDecimal (buildDecimalBuf false 0 true 7) 0).Precision = 0 ∧
    (Decimal.GetRootAsDecimal (buildDecimalBuf false 0 true 7) 0).Scale = 7 :=
  build_scale_only_roundtrip 7 (by decide) (by decide)

theorem Prep_current_vtable (b : Builder) (size add : Nat) :
    (b.Prep size add).current_vtable = b.current_vtable := rfl

/-- A precision of exactly 0 builds the same buffer as an omitted precision,
with scale also omitted. -/
theorem build_noopP0 : buildDecimalBuf true 0 false 0 = buildDecimalBuf false 0 false 0 := by
  simp [buildDecimalBuf, addPrecision_zero]

/-- C6: add_precision(builder, v) writes the 4-byte encoding of v and records
slot 0 only when v differs from the default 0, and add_scale does the same
for slot 1; at the default the builder is left unchanged, omitting the
slot. -/
theorem add_field_default_omitted (b : Builder) (v : Int) :
    (v = 0 → DecimalAddPrecision b v = b ∧ DecimalAddScale b v = b) ∧
    (v ≠ 0 →
      (DecimalAddPrecision b v).data = encodeLE 4 (int32bits v % 256 ^ 4) ++ (b.Prep 4 0).data ∧
      (DecimalAddPrecision b v).current_vtable =
        b.current_vtable.set 0 ((b.PrependInt32 v).Offset) ∧
      (DecimalAddScale b v).data = encodeLE 4 (int32bits v % 256 ^ 4) ++ (b.Prep 4 0).data ∧
      (DecimalAddScale b v).current_vtable =
        b.current_vtable.set 1 ((b.PrependInt32 v).Offset)) := by
  constructor
  · intro h
    subst h
    exact ⟨addPrecision_zero b, addScale_zero b⟩
  · intro h
    simp [DecimalAddPrecision, DecimalAddScale, Builder.PrependInt32Slot, h,
      Builder.PrependInt32, Builder.Place, Builder.Slot, Builder.Offset, Prep_current_vtable]

/-- Witness for C6 at a fresh builder with v = 0 and v = 5. -/
theorem add_field_default_omitted_witness :
    (DecimalAddPrecision Builder.new 0 = Builder.new ∧
      DecimalAddScale Builder.new 0 = Builder.new) ∧
    (DecimalAddPrecision Builder.new 5).data =
      encodeLE 4 (int32bits 5 % 256 ^ 4) ++ (Builder.new.Prep 4 0).data :=
  ⟨(add_field_default_omitted Builder.new 0).1 rfl,
    ((add_field_default_omitted Builder.new 5).2 (by decide)).1⟩

/-- C7: a Decimal built with a field explicitly set to 0 and one built with
that field omitted are byte-for-byte equal, and the read accessors return 0
for the defaulted field in both. -/
theorem default_zero_indistinguishable (v : Int) :
    buildDecimalBuf true 0 true v = buildDecimalBuf false 0 true v ∧
    buildDecimalBuf true v true 0 = buildDecimalBuf true v false 0 ∧
    (Decimal.GetRootAsDecimal (buildDecimalBuf true 0 true v) 0).Precision = 0 ∧
    (Decimal.GetRootAsDecimal (buildDecimalBuf false 0 true v) 0).Precision = 0 ∧
    (Decimal.GetRootAsDecimal (buildDecimalBuf true v true 0) 0).Scale = 0 ∧
    (Decimal.GetRootAsDecimal (buildDecimalBuf true v false 0) 0).Scale = 0 := by
  have hP : (Decimal.GetRootAsDecimal (buildDecimalBuf false 0 true v) 0).Precision = 0 := by
    by_cases hv : v = 0
    · subst hv; rw [build_noopS0, build_none]; exact readP_none
    · rw [build_scaleOnly v hv]; exact readP_scaleOnly v
  have hS : (Decimal.GetRootAsDecimal (buildDecimalBuf true v false 0) 0).Scale = 0 := by
    by_cases hv : v = 0
    · subst hv; rw [build_noopP0, build_none]; exact readS_none
    · rw [build_precisionOnly v hv]; exact readS_precisionOnly v
  exact ⟨build_noopP v, build_noopS v, by rw [build_noopP v]; exact hP, hP,
    by rw [build_noopS v]; exact hS, hS⟩

/-- C8: the accessors are pure reads: constructing a view stores exactly the
buffer reference and position, and two views over equal stored state return
equal precision and scale values (repeated calls included). -/
theorem reads_pure (buf : List Nat) (pos : Nat) (d₁ d₂ : Decimal)
    (h : d₁.tab = d₂.tab) :
    (Decimal.Init buf pos).tab.Bytes = buf ∧ (Decimal.Init buf pos).tab.Pos = pos ∧
    d₁.Precision = d₂.Precision ∧ d₁.Scale = d₂.Scale := by
  cases d₁
  cases d₂
  cases h
  exact ⟨rfl, rfl, rfl, rfl⟩

/-- Witness for C8 on the empty-table buffer. -/
theorem reads_pure_witness :
    (Decimal.Init bufNone 8).tab.Bytes = bufNone ∧ (Decimal.Init bufNone 8).tab.Pos = 8 ∧
    (⟨⟨bufNone, 8⟩⟩ : Decimal).Precision = (⟨⟨bufNone, 8⟩⟩ : Decimal).Precision ∧
    (⟨⟨bufNone, 8⟩⟩ : Decimal).Scale = (⟨⟨bufNone, 8⟩⟩ : Decimal).Scale :=
  reads_pure bufNone 8 ⟨⟨bufNone, 8⟩⟩ ⟨⟨bufNone, 8⟩⟩ rfl

/-- C9: start begins a builder object with exactly 2 slots (and enters the
nested state), and end finalizes it, returning exactly the offset produced by
the builder's EndObject. -/
theorem start_end_contract (b : Builder) :
    DecimalStart b = b.StartObject 2 ∧
    (DecimalStart b).current_vtable.length = 2 ∧
    (DecimalStart b).nested = true ∧
    DecimalEnd b = b.EndObject ∧
    (DecimalEnd b).1 = (b.EndObject).1 ∧
    (DecimalEnd b).2.nested = false := by
  refine ⟨rfl, by simp [DecimalStart, Builder.StartObject], rfl, rfl, rfl, ?_⟩
  show (Builder.EndObject b).2.nested = false
  simp only [Builder.EndObject, Builder.WriteVtable]
  simp only [PrependVOffsetT_nested, PrependSOffsetTRelative_nested,
    foldl_prependV_nested]

/-- C10: on byte-valued buffers the accessors return values representable as
signed 32-bit integers. -/
theorem accessors_int32_range (d : Decimal) (hb : ∀ b ∈ d.tab.Bytes, b < 256) :
    -(2 ^ 31) ≤ d.Precision ∧ d.Precision < 2 ^ 31 ∧
    -(2 ^ 31) ≤ d.Scale ∧ d.Scale < 2 ^ 31 := by
  have hP := toInt32_range (readLE d.tab.Bytes (d.tab.Offset 4 + d.tab.Pos) 4)
    (readLE_lt d.tab.Bytes hb (d.tab.Offset 4 + d.tab.Pos) 4)
  have hS := toInt32_range (readLE d.tab.Bytes (d.tab.Offset 6 + d.tab.Pos) 4)
    (readLE_lt d.tab.Bytes hb (d.tab.Offset 6 + d.tab.Pos) 4)
  by_cases h4 : d.tab.Offset 4 = 0 <;> by_cases h6 : d.tab.Offset 6 = 0 <;>
    simp [Decimal.Precision, Decimal.Scale, Table.Get32, readInt32, readUInt32, h4, h6] <;>
    omega

/-- Witness for C10 on the empty-table buffer. -/
theorem accessors_int32_range_witness :
    -(2 ^ 31) ≤ (⟨⟨bufNone, 8⟩⟩ : Decimal).Precision ∧
      (⟨⟨bufNone, 8⟩⟩ : Decimal).Precision < 2 ^ 31 ∧
    -(2 ^ 31) ≤ (⟨⟨bufNone, 8⟩⟩ : Decimal).Scale ∧
      (⟨⟨bufNone, 8⟩⟩ : Decimal).Scale < 2 ^ 31 :=
  accessors_int32_range ⟨⟨bufNone, 8⟩⟩ (by decide)

end PyGdfFlatbuf
